import Mathlib

/-!
Verification of the cache-key derivation, version-resolution, source-provider,
package-URL and ports-installer logic of the setup-macports action.

The TypeScript sources are shallowly embedded: pure functions become Lean
functions; functions whose only effect is the in-place `Array.prototype.sort`
mutation of their `settings` argument are modelled by explicit state passing
(they return the post-call `Settings` record next to their result); fallible
functions return `Except`.  JavaScript machine-level details are modelled
explicitly: `x || y` string defaulting, UTF-16 code-unit comparison used by the
default `Array.prototype.sort` comparator, the exact `JSON.stringify`
serialization of the configuration records, and the RIPEMD-160 digest used for
the configuration hashes.
-/

namespace SetupMacPorts

/-! ## JavaScript primitives -/

/-- JS `a || b` for a possibly-absent string (`undefined` or `''` both fall
through to the default, because `''` is falsy). -/
def jsOrElse (o : Option String) (d : String) : String :=
  match o with
  | none => d
  | some s => if s = "" then d else s

/-- ASCII lower-casing of a character, as `String.prototype.toLowerCase`
behaves on ASCII input (the inputs compared against `"latest"`, `"rc"`,
`"beta"`, `"alpha"` in this code base are only affected on ASCII letters). -/
def charLowerAscii (c : Char) : Char :=
  if 65 ≤ c.toNat ∧ c.toNat ≤ 90 then Char.ofNat (c.toNat + 32) else c

/-- ASCII lower-casing of a string (`String.prototype.toLowerCase`). -/
def jsToLower (s : String) : String :=
  String.mk (s.data.map charLowerAscii)

/-- Whitespace test used to model `String.prototype.trim` and `/\s+/`. -/
def jsIsWs (c : Char) : Bool :=
  c = ' ' ∨ c = '\t' ∨ c = '\n' ∨ c = '\r' ∨ c = '\x0b' ∨ c = '\x0c'

/-- `String.prototype.trim`: strip leading and trailing whitespace. -/
def jsTrim (s : String) : String :=
  String.mk (((s.data.dropWhile jsIsWs).reverse.dropWhile jsIsWs).reverse)

/-- `s.substring(0, n)` (on the ASCII hex strings it is applied to in this
code base, UTF-16 units coincide with characters). -/
def jsSubstringTo (s : String) (n : Nat) : String :=
  String.mk (s.data.take n)

/-- `String.prototype.split` on a character-class predicate, followed by the
truthiness filter the source applies to each piece (`if (variant)`), which
drops the empty pieces; the composite is exactly what splitting on a `/\s+/`
run produces from a trimmed string. -/
def jsSplitNonEmpty (s : String) (p : Char → Bool) : List String :=
  (s.split p).filter (fun piece => piece ≠ "")

/-! ## UTF-16 code-unit order (default `Array.prototype.sort` comparator) -/

/-- UTF-16 code units of a character: BMP scalars are one unit, astral scalars
are a high/low surrogate pair. -/
def u16 (c : Char) : List Nat :=
  if c.toNat < 65536 then [c.toNat]
  else [55296 + (c.toNat - 65536) / 1024, 56320 + (c.toNat - 65536) % 1024]

/-- UTF-16 code-unit sequence of a character list. -/
def u16Key : List Char → List Nat
  | [] => []
  | c :: cs => u16 c ++ u16Key cs

/-- Lexicographic `≤` on code-unit sequences. -/
def leK : List Nat → List Nat → Bool
  | [], _ => true
  | _ :: _, [] => false
  | a :: x, b :: y => if a < b then true else if b < a then false else leK x y

/-- The string order used by the default `Array.prototype.sort` comparator:
lexicographic comparison of UTF-16 code-unit sequences. -/
def jsLe (a b : String) : Prop :=
  leK (u16Key a.data) (u16Key b.data) = true

instance : DecidableRel jsLe := fun a b => by
  unfold jsLe; infer_instance

/-- Output of `Array.prototype.sort()` with the default comparator on an array
of strings: the array sorted by UTF-16 code-unit order.  (The engine's actual
sorting algorithm is irrelevant: for this total antisymmetric order the sorted
result is unique, see `jsSortStrings_perm_eq`.) -/
def jsSortStrings (l : List String) : List String :=
  l.insertionSort jsLe

/-! ## `JSON.stringify` string and array serialization

The configuration records hashed by the cache utility are serialized with
`JSON.stringify`; the relevant fragment (strings and arrays of strings, no
indentation) is embedded here at the `List Char` level. -/

/-- Lowercase hexadecimal digit. -/
def hexDigit (n : Nat) : Char :=
  if n < 10 then Char.ofNat (48 + n) else Char.ofNat (87 + n)

/-- `JSON.stringify` escaping of one character: `"` and `\` get a backslash,
the five named control escapes are used where they exist, the remaining
control characters become `\u00XX` (lowercase hex), everything else is
emitted verbatim. -/
def escChar (c : Char) : List Char :=
  if c = '"' then ['\\', '"']
  else if c = '\\' then ['\\', '\\']
  else if c = '\x08' then ['\\', 'b']
  else if c = '\x09' then ['\\', 't']
  else if c = '\x0a' then ['\\', 'n']
  else if c = '\x0c' then ['\\', 'f']
  else if c = '\x0d' then ['\\', 'r']
  else if c.toNat < 32 then
    ['\\', 'u', '0', '0', hexDigit (c.toNat / 16), hexDigit (c.toNat % 16)]
  else [c]

/-- `JSON.stringify` escaping of a character sequence. -/
def escList : List Char → List Char
  | [] => []
  | c :: cs => escChar c ++ escList cs

/-- `JSON.stringify` of a string, as characters: quote, escaped body, quote. -/
def qList (l : List Char) : List Char :=
  '"' :: escList l ++ ['"']

/-- Comma-separated `JSON.stringify` elements of an array of strings. -/
def sepQ : List (List Char) → List Char
  | [] => []
  | [x] => qList x
  | x :: y :: xs => qList x ++ ',' :: sepQ (y :: xs)

/-- `JSON.stringify` of an array of strings, as characters. -/
def arrList (ls : List (List Char)) : List Char :=
  '[' :: sepQ ls ++ [']']

/-- Characters of `JSON.stringify(configData)` for the cache-configuration
record `\x7b prefix, version, variants: \x7b select, deselect \x7d, sources \x7d`
(braces written as escapes here; field order is the object-literal insertion
order used by the source). -/
def configList (pre ver : List Char) (sel des src : List (List Char)) :
    List Char :=
  '\x7b' :: "\"prefix\":".data
    ++ qList pre
    ++ ",\"version\":".data
    ++ qList ver
    ++ (",\"variants\":".data ++ ['\x7b'] ++ "\"select\":".data)
    ++ arrList sel
    ++ ",\"deselect\":".data
    ++ arrList des
    ++ ('\x7d' :: ",\"sources\":".data)
    ++ arrList src
    ++ ['\x7d']

/-- Characters of `JSON.stringify(contextData)` for the workflow-context
record of the legacy improved cache key. -/
def contextList (workflow ref setupMacPortsVersion : List Char) : List Char :=
  '\x7b' :: "\"workflow\":".data
    ++ qList workflow
    ++ ",\"ref\":".data
    ++ qList ref
    ++ ",\"setupMacPortsVersion\":".data
    ++ qList setupMacPortsVersion
    ++ ['\x7d']

/-- Inverse of `hexDigit` on the hex-digit characters. -/
def fromHexDigit (c : Char) : Option Nat :=
  if 48 ≤ c.toNat ∧ c.toNat ≤ 57 then some (c.toNat - 48)
  else if 97 ≤ c.toNat ∧ c.toNat ≤ 102 then some (c.toNat - 87)
  else none

/-- Decoder for the body of a `JSON.stringify`-escaped string (everything
after the opening quote): collects characters up to the closing quote,
undoing the escapes, and returns the remaining input.  Used only to prove
that the serialization is uniquely decodable; it does not appear in the
embedded code. -/
def parseStrGo : List Char → Option (List Char × List Char)
  | [] => none
  | c :: rest =>
    if c = '"' then some ([], rest)
    else if c = '\\' then
      match rest with
      | [] => none
      | e :: rs =>
        if e = '"' then (parseStrGo rs).map (fun p => ('"' :: p.1, p.2))
        else if e = '\\' then (parseStrGo rs).map (fun p => ('\\' :: p.1, p.2))
        else if e = 'b' then (parseStrGo rs).map (fun p => ('\x08' :: p.1, p.2))
        else if e = 't' then (parseStrGo rs).map (fun p => ('\x09' :: p.1, p.2))
        else if e = 'n' then (parseStrGo rs).map (fun p => ('\x0a' :: p.1, p.2))
        else if e = 'f' then (parseStrGo rs).map (fun p => ('\x0c' :: p.1, p.2))
        else if e = 'r' then (parseStrGo rs).map (fun p => ('\x0d' :: p.1, p.2))
        else if e = 'u' then
          match rs with
          | h1 :: h2 :: h3 :: h4 :: rs2 =>
            match fromHexDigit h1, fromHexDigit h2,
                fromHexDigit h3, fromHexDigit h4 with
            | some n1, some n2, some n3, some n4 =>
              (parseStrGo rs2).map
                (fun p => (Char.ofNat (4096 * n1 + 256 * n2 + 16 * n3 + n4)
                  :: p.1, p.2))
            | _, _, _, _ => none
          | _ => none
        else none
    else (parseStrGo rest).map (fun p => (c :: p.1, p.2))

/-- Decoder for a full `JSON.stringify`-escaped string (with its quotes). -/
def parseQuoted : List Char → Option (List Char × List Char)
  | '"' :: rest => parseStrGo rest
  | _ => none

/-- Two string lists differ in membership when some string belongs to exactly
one of them. -/
def membershipDiffers (l₁ l₂ : List String) : Prop :=
  ∃ x : String, ¬ (x ∈ l₁ ↔ x ∈ l₂)

/-! ## UTF-8 encoding (`crypto.update` treats the string as UTF-8) -/

/-- Standard UTF-8 encoding of one Unicode scalar value, as byte values. -/
def utf8Char (c : Char) : List Nat :=
  let n := c.toNat
  if n < 128 then [n]
  else if n < 2048 then [192 + n / 64, 128 + n % 64]
  else if n < 65536 then
    [224 + n / 4096, 128 + (n / 64) % 64, 128 + n % 64]
  else
    [240 + n / 262144, 128 + (n / 4096) % 64, 128 + (n / 64) % 64, 128 + n % 64]

/-- UTF-8 encoding of a character sequence. -/
def utf8Bytes : List Char → List Nat
  | [] => []
  | c :: cs => utf8Char c ++ utf8Bytes cs

/-! ## RIPEMD-160 (`crypto.createHash('ripemd160')`)

Word arithmetic is on `Nat` with explicit reduction modulo `2 ^ 32`. -/

/-- Addition modulo `2 ^ 32`. -/
def add32 (a b : Nat) : Nat := (a + b) % 4294967296

/-- Left rotation of a 32-bit word. -/
def rotl32 (x n : Nat) : Nat :=
  ((x <<< n) % 4294967296) ||| (x >>> (32 - n))

/-- The five RIPEMD-160 boolean functions, selected by the round index. -/
def rmdF (j x y z : Nat) : Nat :=
  if j < 16 then x ^^^ y ^^^ z
  else if j < 32 then (x &&& y) ||| ((x ^^^ 4294967295) &&& z)
  else if j < 48 then (x ||| (y ^^^ 4294967295)) ^^^ z
  else if j < 64 then (x &&& z) ||| (y &&& (z ^^^ 4294967295))
  else x ^^^ (y ||| (z ^^^ 4294967295))

/-- Left-line round constants. -/
def rmdKL (j : Nat) : Nat :=
  [0, 1518500249, 1859775393, 2400959708, 2840853838].getD (j / 16) 0

/-- Right-line round constants. -/
def rmdKR (j : Nat) : Nat :=
  [1352829926, 1548603684, 1836072691, 2053994217, 0].getD (j / 16) 0

/-- Left-line message-word permutation. -/
def rmdRL (j : Nat) : Nat :=
  [0, 1, 2, 3, 4, 5, 6, 7, 8, 9, 10, 11, 12, 13, 14, 15,
   7, 4, 13, 1, 10, 6, 15, 3, 12, 0, 9, 5, 2, 14, 11, 8,
   3, 10, 14, 4, 9, 15, 8, 1, 2, 7, 0, 6, 13, 11, 5, 12,
   1, 9, 11, 10, 0, 8, 12, 4, 13, 3, 7, 15, 14, 5, 6, 2,
   4, 0, 5, 9, 7, 12, 2, 10, 14, 1, 3, 8, 11, 6, 15, 13].getD j 0

/-- Right-line message-word permutation. -/
def rmdRR (j : Nat) : Nat :=
  [5, 14, 7, 0, 9, 2, 11, 4, 13, 6, 15, 8, 1, 10, 3, 12,
   6, 11, 3, 7, 0, 13, 5, 10, 14, 15, 8, 12, 4, 9, 1, 2,
   15, 5, 1, 3, 7, 14, 6, 9, 11, 8, 12, 2, 10, 0, 4, 13,
   8, 6, 4, 1, 3, 11, 15, 0, 5, 12, 2, 13, 9, 7, 10, 14,
   12, 15, 10, 4, 1, 5, 8, 7, 6, 2, 13, 14, 0, 3, 9, 11].getD j 0

/-- Left-line rotation amounts. -/
def rmdSL (j : Nat) : Nat :=
  [11, 14, 15, 12, 5, 8, 7, 9, 11, 13, 14, 15, 6, 7, 9, 8,
   7, 6, 8, 13, 11, 9, 7, 15, 7, 12, 15, 9, 11, 7, 13, 12,
   11, 13, 6, 7, 14, 9, 13, 15, 14, 8, 13, 6, 5, 12, 7, 5,
   11, 12, 14, 15, 14, 15, 9, 8, 9, 14, 5, 6, 8, 6, 5, 12,
   9, 15, 5, 11, 6, 8, 13, 12, 5, 12, 13, 14, 11, 8, 5, 6].getD j 0

/-- Right-line rotation amounts. -/
def rmdSR (j : Nat) : Nat :=
  [8, 9, 9, 11, 13, 15, 15, 5, 7, 7, 8, 11, 14, 14, 12, 6,
   9, 13, 15, 7, 12, 8, 9, 11, 7, 7, 12, 7, 6, 15, 13, 11,
   9, 7, 15, 11, 8, 6, 6, 14, 12, 13, 5, 14, 13, 13, 7, 5,
   15, 5, 8, 11, 14, 14, 6, 14, 6, 9, 12, 9, 12, 5, 15, 8,
   8, 5, 12, 9, 12, 5, 14, 6, 8, 13, 6, 5, 15, 13, 11, 11].getD j 0

/-- Chaining state of five 32-bit words. -/
structure RmdState where
  a : Nat
  b : Nat
  c : Nat
  d : Nat
  e : Nat

/-- One round step of one line (`F` is the line's round-indexed boolean
function: `rmdF j` on the left line, `rmdF (79 - j)` on the right line). -/
def rmdStep (X : Nat → Nat) (F : Nat → Nat → Nat → Nat → Nat)
    (K R S : Nat → Nat) (j : Nat) (st : RmdState) : RmdState :=
  let t := add32 (rotl32 (add32 (add32 (add32 st.a (F j st.b st.c st.d))
    (X (R j))) (K j)) (S j)) st.e
  ⟨st.e, t, st.b, rotl32 st.c 10, st.d⟩

/-- Eighty round steps of one line. -/
def rmdLine (X : Nat → Nat) (F : Nat → Nat → Nat → Nat → Nat)
    (K R S : Nat → Nat) (st : RmdState) : RmdState :=
  (List.range 80).foldl (fun acc j => rmdStep X F K R S j acc) st

/-- Compression of one sixteen-word block. -/
def rmdCompress (h : RmdState) (X : Nat → Nat) : RmdState :=
  let l := rmdLine X (fun j => rmdF j) rmdKL rmdRL rmdSL h
  let r := rmdLine X (fun j => rmdF (79 - j)) rmdKR rmdRR rmdSR h
  { a := add32 (add32 h.b l.c) r.d
    b := add32 (add32 h.c l.d) r.e
    c := add32 (add32 h.d l.e) r.a
    d := add32 (add32 h.e l.a) r.b
    e := add32 (add32 h.a l.b) r.c }

/-- Split into 64-byte blocks, structurally recursive on a fuel bound (any
fuel of at least `bytes.length / 64` steps yields the chunking). -/
def rmdBlocksFuel : Nat → List Nat → List (List Nat)
  | 0, bytes => [bytes]
  | fuel + 1, bytes =>
    if bytes.length ≤ 64 then [bytes]
    else bytes.take 64 :: rmdBlocksFuel fuel (bytes.drop 64)

/-- Split the padded byte sequence into 64-byte blocks. -/
def rmdBlocks (bytes : List Nat) : List (List Nat) :=
  rmdBlocksFuel bytes.length bytes

/-- Little-endian 32-bit words of one 64-byte block. -/
def rmdWords (block : List Nat) (i : Nat) : Nat :=
  block.getD (4 * i) 0 + 256 * block.getD (4 * i + 1) 0
    + 65536 * block.getD (4 * i + 2) 0 + 16777216 * block.getD (4 * i + 3) 0

/-- Merkle–Damgård padding: `0x80`, zeros to 56 mod 64, then the bit length
as a 64-bit little-endian quantity. -/
def rmdPad (msg : List Nat) : List Nat :=
  let len := msg.length
  let zeros := (119 - len % 64) % 64
  let bitLen := 8 * len
  msg ++ 128 :: List.replicate zeros 0
    ++ [bitLen % 256, (bitLen >>> 8) % 256, (bitLen >>> 16) % 256,
        (bitLen >>> 24) % 256, (bitLen >>> 32) % 256, (bitLen >>> 40) % 256,
        (bitLen >>> 48) % 256, (bitLen >>> 56) % 256]

/-- RIPEMD-160 digest of a byte sequence, as twenty bytes. -/
def ripemd160 (msg : List Nat) : List Nat :=
  let init : RmdState := ⟨1732584193, 4023233417, 2562383102, 271733878, 3285377520⟩
  let final := (rmdBlocks (rmdPad msg)).foldl
    (fun h block => rmdCompress h (rmdWords block)) init
  [final.a, final.b, final.c, final.d, final.e].flatMap
    (fun w => [w % 256, (w >>> 8) % 256, (w >>> 16) % 256, (w >>> 24) % 256])

/-- Lowercase hex rendering of a byte sequence (`digest('hex')`). -/
def bytesToHex (bytes : List Nat) : List Char :=
  bytes.flatMap (fun b => [hexDigit (b / 16), hexDigit (b % 16)])

/-- `crypto.createHash('ripemd160').update(s).digest('hex')` for a string. -/
def ripemd160Hex (s : List Char) : String :=
  String.mk (bytesToHex (ripemd160 (utf8Bytes s)))

/-! ## Data model (`src/models/settings.ts`, `src/models/platform-info.ts`) -/

/-- `IVariantConfig`. -/
structure VariantConfig where
  select : List String
  deselect : List String
deriving DecidableEq

/-- `IPortConfig`. -/
structure PortConfig where
  name : String
  variants : Option String
deriving DecidableEq

/-- `ESourcesProvider`. -/
inductive ESourcesProvider where
  | auto | git | rsync | custom
deriving DecidableEq

/-- `ESignatureCheck`. -/
inductive ESignatureCheck where
  | strict | permissive | disabled
deriving DecidableEq

/-- `IMacPortsSettings` (current snapshot of `src/models/settings.ts`).  The
TypeScript field `prefix` is called `prefixPath` here because `prefix` is a
Lean keyword; all other field names are kept. -/
structure Settings where
  version : String
  resolvedVersion : Option String
  prefixPath : String
  variants : VariantConfig
  sources : List String
  ports : List PortConfig
  useGitSources : Bool
  sourcesProvider : ESourcesProvider
  gitRepository : String
  gitRef : Option String
  rsyncUrl : String
  prependPath : Bool
  verbose : Bool
  signatureCheck : ESignatureCheck
  signatureSkipPackages : List String
  debug : Bool
  cache : Bool
  githubToken : Option String
deriving DecidableEq

/-- `IPlatformInfo`. -/
structure PlatformInfo where
  version : String
  versionNumber : String
  architecture : String
deriving DecidableEq

/-- Result shape of `generateImprovedCacheKey`. -/
structure CacheKeyResult where
  cacheKey : String
  restoreKeys : List String
deriving DecidableEq

/-! ## Cache utility (current snapshot, `src/utils/cache.ts` = part_005) -/

/-- `platform.versionNumber?.split('.')[0] || '15'`: the text before the first
dot, defaulting to `"15"` when that text is empty. -/
def platformMajor (versionNumber : String) : String :=
  let first := String.mk (versionNumber.data.takeWhile (fun c => c ≠ '.'))
  if first = "" then "15" else first

/-- `JSON.stringify(configData)` as the cache-key functions build it: the
object is constructed from the arrays after their in-place sort, so the
serialized list fields are the sorted arrays. -/
def configStringOf (s : Settings) : String :=
  String.mk (configList s.prefixPath.data s.version.data
    ((jsSortStrings s.variants.select).map String.data)
    ((jsSortStrings s.variants.deselect).map String.data)
    ((jsSortStrings s.sources).map String.data))

namespace CacheUtil

/-- `generateCacheKey`: the legacy hash-based key
`macports-{osName}-{arch}-v2-{ripemd160(configString)}`.  The call sorts
`settings.variants.select`, `settings.variants.deselect` and
`settings.sources` in place (JavaScript `Array.prototype.sort` mutates), so
the embedding returns the post-call `Settings` record next to the key. -/
def generateCacheKey (s : Settings) (p : PlatformInfo) : String × Settings :=
  let select := jsSortStrings s.variants.select
  let deselect := jsSortStrings s.variants.deselect
  let sources := jsSortStrings s.sources
  let s' := { s with variants := ⟨select, deselect⟩, sources := sources }
  let hash := ripemd160Hex (configStringOf s).data
  ("macports-" ++ p.version ++ "-" ++ p.architecture ++ "-v2-" ++ hash, s')

/-- `generateImprovedCacheKey` (current snapshot): the full-installation cache
key `macports-{effectiveVersion}-{arch}-{platformMajor}` where
`effectiveVersion = settings.resolvedVersion || settings.version`; no restore
keys.  The function reads but never mutates `settings`, so the returned state
equals the input. -/
def generateImprovedCacheKey (s : Settings) (p : PlatformInfo) :
    CacheKeyResult × Settings :=
  let effectiveVersion := jsOrElse s.resolvedVersion s.version
  let cacheKey := "macports-" ++ effectiveVersion ++ "-" ++ p.architecture
    ++ "-" ++ platformMajor p.versionNumber
  (⟨cacheKey, []⟩, s)

/-- `generateSetupCacheKey`. -/
def generateSetupCacheKey (version : String) (p : PlatformInfo) : String :=
  "macports-setup-" ++ version ++ "-" ++ p.architecture ++ "-"
    ++ platformMajor p.versionNumber

/-- `generatePortsCacheKey`: provider is `git` only for the `git` enum value,
and the ref segment is `settings.gitRef || 'master'` (note: the source applies
this defaulting regardless of the provider). -/
def generatePortsCacheKey (s : Settings) (p : PlatformInfo) : String :=
  let provider := if s.sourcesProvider = ESourcesProvider.git then "git" else "rsync"
  let gitRef := jsOrElse s.gitRef "master"
  "macports-ports-" ++ provider ++ "-" ++ gitRef ++ "-"
    ++ platformMajor p.versionNumber

end CacheUtil

/-! ## Cache utility, superseded snapshot (part_004): the hash-based improved
key `macports-{version}-{arch}-{platformMajor}-{configHash}-{contextHash}` -/

/-- Environment of the legacy `generateImprovedCacheKey`: the
`GITHUB_WORKFLOW`, `GITHUB_REF`, `GITHUB_BASE_REF` process-environment
variables (absent modelled as `none`) and the result of
`getSetupMacPortsVersion()` (a `package.json` read, abstracted as an input). -/
structure ActionEnv where
  workflow : Option String
  ref : Option String
  baseRef : Option String
  setupMacPortsVersion : String
deriving DecidableEq

/-- `normalizeGitRef`: strip a `refs/heads/` or `refs/tags/` lead, otherwise
substitute the non-empty base ref, otherwise keep the ref verbatim. -/
def normalizeGitRef (ref baseRef : String) : String :=
  if "refs/heads/".data <+: ref.data then String.mk (ref.data.drop 11)
  else if "refs/tags/".data <+: ref.data then String.mk (ref.data.drop 10)
  else if baseRef ≠ "" then baseRef
  else ref

/-- The 16-hex-character `configHash` of the legacy improved cache key:
RIPEMD-160 of the serialized configuration, truncated by `substring(0, 16)`. -/
def legacyConfigHash (s : Settings) : String :=
  jsSubstringTo (ripemd160Hex (configStringOf s).data) 16

/-- The 8-hex-character `contextHash` of the legacy improved cache key. -/
def legacyContextHash (env : ActionEnv) : String :=
  let workflow := jsOrElse env.workflow "unknown"
  let ref := jsOrElse env.ref "unknown"
  let baseRef := jsOrElse env.baseRef ""
  let normalizedRef := normalizeGitRef ref baseRef
  jsSubstringTo (ripemd160Hex (contextList workflow.data normalizedRef.data
    env.setupMacPortsVersion.data)) 8

namespace CacheUtilLegacy

/-- The superseded `generateImprovedCacheKey` (part_004): combined key built
from `settings.version`, architecture, platform major, `configHash` and
`contextHash`, with three progressively less specific restore keys.  Like
`generateCacheKey` it sorts the three list fields in place, so the embedding
returns the post-call `Settings`. -/
def generateImprovedCacheKey (s : Settings) (p : PlatformInfo)
    (env : ActionEnv) : CacheKeyResult × Settings :=
  let select := jsSortStrings s.variants.select
  let deselect := jsSortStrings s.variants.deselect
  let sources := jsSortStrings s.sources
  let s' := { s with variants := ⟨select, deselect⟩, sources := sources }
  let configHash := legacyConfigHash s
  let contextHash := legacyContextHash env
  let pm := platformMajor p.versionNumber
  let stem := "macports-" ++ s.version ++ "-" ++ p.architecture ++ "-"
  let cacheKey := stem ++ pm ++ "-" ++ configHash ++ "-" ++ contextHash
  let restoreKeys :=
    [stem ++ pm ++ "-" ++ configHash ++ "-", stem ++ pm ++ "-", stem]
  (⟨cacheKey, restoreKeys⟩, s')

end CacheUtilLegacy

/-! ## Package builder (`src/services/package-builder.ts`) -/

/-- An entry of `MACOS_PKG_VERSIONS`. -/
structure PkgVersionInfo where
  name : String
  pkgVersion : String
deriving DecidableEq

/-- The `MACOS_PKG_VERSIONS` table. -/
def MACOS_PKG_VERSIONS : List (String × PkgVersionInfo) :=
  [("10.10", ⟨"Yosemite", "10.10"⟩),
   ("10.11", ⟨"ElCapitan", "10.11"⟩),
   ("10.12", ⟨"Sierra", "10.12"⟩),
   ("10.13", ⟨"HighSierra", "10.13"⟩),
   ("10.14", ⟨"Mojave", "10.14"⟩),
   ("10.15", ⟨"Catalina", "10.15"⟩),
   ("11", ⟨"BigSur", "11"⟩),
   ("12", ⟨"Monterey", "12"⟩),
   ("14", ⟨"Sonoma", "14"⟩),
   ("15", ⟨"Sequoia", "15"⟩),
   ("26", ⟨"Tahoe", "26"⟩)]

/-- The `versionNumber.match(/^\d+/)` leading-digit run (empty when the string
does not start with a digit, in which case the regex fails to match). -/
def leadingDigits (s : String) : String :=
  String.mk (s.data.takeWhile Char.isDigit)

/-- `PackageBuilder.buildUrl`.  Throwing is modelled with `Except`. -/
def buildUrl (s : Settings) (p : PlatformInfo) : Except String String :=
  let majorVersion := leadingDigits p.versionNumber
  if majorVersion = "" then
    Except.error ("Could not parse macOS version: " ++ p.versionNumber)
  else
    match MACOS_PKG_VERSIONS.lookup majorVersion with
    | none =>
      Except.error ("Unsupported macOS version: " ++ majorVersion
        ++ ". Supported versions: "
        ++ String.intercalate ", " (MACOS_PKG_VERSIONS.map Prod.fst))
    | some versionInfo =>
      let effectiveVersion := jsOrElse s.resolvedVersion s.version
      Except.ok ("https://github.com/macports/macports-base/releases/download/v"
        ++ effectiveVersion ++ "/MacPorts-" ++ effectiveVersion ++ "-"
        ++ versionInfo.pkgVersion ++ "-" ++ versionInfo.name ++ ".pkg")

/-! ## Ports installer (part_009, `PortsInstaller.install`) -/

/-- The variant tokens appended for one port:
`port.variants.trim().split(/\s+/)` with empty pieces dropped by the
truthiness check before `args.push(variant)`. -/
def variantTokens (variants : Option String) : List String :=
  match variants with
  | none => []
  | some v => jsSplitNonEmpty (jsTrim v) jsIsWs

/-- The argument list `PortsInstaller.install` passes to the `port` binary for
one entry of `settings.ports`: optional `-f` (when the port name is in the
`signatureSkipPackages` set), optional `-v` (verbose), then `install`, the
port name, and the port's variant tokens. -/
def portInstallArgs (s : Settings) (port : PortConfig) : List String :=
  let shouldSkipSignature := s.signatureSkipPackages.contains port.name
  let globalArgs :=
    (if shouldSkipSignature then ["-f"] else [])
      ++ (if s.verbose then ["-v"] else [])
  globalArgs ++ ["install", port.name] ++ variantTokens port.variants

/-! ## Source provider dispatch (`src/providers/macports-provider.ts`,
`setupSources`) -/

/-- Observable outcome of `setupSources`: whether git sources ended up in use,
and the warnings emitted on the way. -/
structure SetupSourcesState where
  usesGitSources : Bool
  warnings : List String
deriving DecidableEq

/-- `MacPortsProvider.setupSources`, with the outcome of the inner
`setupGitSources()` call abstracted as an `Except` parameter (it performs
network and filesystem work).  `auto` catches any git failure, records the
warning and falls back to rsync; `git` propagates the failure; `rsync` and
`custom` never attempt git. -/
def setupSources (provider : ESourcesProvider)
    (gitAttempt : Except String Unit) : Except String SetupSourcesState :=
  match provider with
  | ESourcesProvider.auto =>
    match gitAttempt with
    | Except.ok _ => Except.ok ⟨true, []⟩
    | Except.error msg =>
      Except.ok ⟨false, ["Git sources failed: " ++ msg ++ ". Falling back to rsync."]⟩
  | ESourcesProvider.git =>
    match gitAttempt with
    | Except.ok _ => Except.ok ⟨true, []⟩
    | Except.error msg => Except.error msg
  | ESourcesProvider.rsync => Except.ok ⟨false, []⟩
  | ESourcesProvider.custom => Except.ok ⟨false, []⟩

/-! ## Version resolver (part_010) -/

/-- `IVersionResolution`. -/
structure VersionResolution where
  version : String
  wasLatest : Bool
  originalInput : String
deriving DecidableEq

/-- A release as returned by the GitHub API (`octokit.rest.repos.listReleases`
item): `tag_name`, the `prerelease` flag, and `published_at` modelled as the
epoch-millisecond value that `new Date(published_at).getTime()` yields. -/
structure GitHubRelease where
  tag_name : String
  prerelease : Bool
  published_at : Int
deriving DecidableEq

/-- `IMacPortsRelease` as built by `fetchReleases`. -/
structure Release where
  tag : String
  version : String
  isPrerelease : Bool
  publishedAt : Int
deriving DecidableEq

/-- `tag_name.replace(/^v/, '')`: strip one leading lowercase `v`. -/
def stripLeadingV (s : String) : String :=
  match s.data with
  | 'v' :: rest => String.mk rest
  | _ => s

/-- The regex test `-?(rc|beta|alpha)` with the `i` flag applied to the tag
(`isPrerelease` in `fetchReleases`): since the hyphen is optional and the
pattern is unanchored, this holds exactly when the lower-cased tag contains
`rc`, `beta` or `alpha` anywhere. -/
def prereleasePattern (tag : String) : Bool :=
  let t := (jsToLower tag).data
  decide ("rc".data <:+: t) || decide ("beta".data <:+: t)
    || decide ("alpha".data <:+: t)

/-- The per-release mapping inside `fetchReleases`. -/
def toRelease (r : GitHubRelease) : Release :=
  { tag := r.tag_name
    version := stripLeadingV r.tag_name
    isPrerelease := r.prerelease || prereleasePattern r.tag_name
    publishedAt := r.published_at }

/-- The hardcoded `fallbackVersion` of `VersionResolver`. -/
def fallbackVersion : String := "2.12.0"

/-- Comparator `(a, b) => new Date(b.publishedAt).getTime() - new
Date(a.publishedAt).getTime()`, i.e. descending publish time. -/
def descPublished (a b : Release) : Prop := b.publishedAt ≤ a.publishedAt

instance : DecidableRel descPublished := fun a b => by
  unfold descPublished; infer_instance

/-- `findLatestStable`: drop flagged releases, sort the rest by descending
publish time, take the first (`null` when nothing remains). -/
def findLatestStable (releases : List Release) : Option Release :=
  let stableReleases := releases.filter (fun r => !r.isPrerelease)
  if stableReleases.length = 0 then none
  else (stableReleases.insertionSort descPublished).head?

/-- `fetchReleases` with its three-attempt retry loop; the network is
abstracted as the outcome of each attempt.  Returns the result together with
the list of inter-attempt delays (milliseconds) that were awaited:
`1000 * attempt` after each failed attempt except the last. -/
def fetchReleases (net : Nat → Except String (List GitHubRelease)) :
    Except String (List Release) × List Nat :=
  match net 1 with
  | Except.ok releases => (Except.ok (releases.map toRelease), [])
  | Except.error _ =>
    match net 2 with
    | Except.ok releases => (Except.ok (releases.map toRelease), [1000 * 1])
    | Except.error _ =>
      match net 3 with
      | Except.ok releases =>
        (Except.ok (releases.map toRelease), [1000 * 1, 1000 * 2])
      | Except.error e3 => (Except.error e3, [1000 * 1, 1000 * 2])

/-- Trace of one `resolve` call: the resolution, whether the network path was
taken, and the retry delays awaited. -/
structure ResolveTrace where
  resolution : VersionResolution
  usedNetwork : Bool
  delays : List Nat
deriving DecidableEq

/-- `VersionResolver.resolve`.  Inputs whose lower-cased form is not exactly
`latest` return immediately; otherwise the release query runs (with retries)
and any failure or empty stable set degrades to the fallback version. -/
def resolve (input : String) (net : Nat → Except String (List GitHubRelease)) :
    ResolveTrace :=
  if jsToLower input ≠ "latest" then
    ⟨⟨input, false, input⟩, false, []⟩
  else
    match fetchReleases net with
    | (Except.error _, delays) => ⟨⟨fallbackVersion, true, input⟩, true, delays⟩
    | (Except.ok releases, delays) =>
      match findLatestStable releases with
      | none => ⟨⟨fallbackVersion, true, input⟩, true, delays⟩
      | some latestStable => ⟨⟨latestStable.version, true, input⟩, true, delays⟩

/-! ## Sample values (mirroring the repository's test fixtures) -/

/-- The baseline settings record of the cache-utility test suite
(`createSettings()`). -/
def sampleSettings : Settings :=
  { version := "2.11.5"
    resolvedVersion := none
    prefixPath := "/opt/local"
    variants := ⟨[], []⟩
    sources := []
    ports := []
    useGitSources := true
    sourcesProvider := ESourcesProvider.auto
    gitRepository := "macports/macports-ports"
    gitRef := none
    rsyncUrl := "rsync://rsync.macports.org/macports/release/tarballs/ports.tar"
    prependPath := true
    verbose := false
    signatureCheck := ESignatureCheck.strict
    signatureSkipPackages := []
    debug := false
    cache := false
    githubToken := none }

/-- The baseline platform record of the test suite (`createPlatform`). -/
def samplePlatform : PlatformInfo :=
  ⟨"Sequoia", "15.0", "arm64"⟩

/-- The fixture of the `uses resolvedVersion when available` test: `latest`
resolved to `2.11.6`. -/
def sampleSettingsResolved : Settings :=
  { sampleSettings with
    version := "latest"
    resolvedVersion := some "2.11.6" }

/-- Settings selecting the `auto` provider with an explicit non-`master` git
ref. -/
def sampleSettingsAutoRef : Settings :=
  { sampleSettings with
    sourcesProvider := ESourcesProvider.auto
    gitRef := some "develop" }

/-- Settings in permissive signature mode, skipping signatures for `db48`,
with verbose output. -/
def sampleSettingsPermissive : Settings :=
  { sampleSettings with
    verbose := true
    signatureCheck := ESignatureCheck.permissive
    signatureSkipPackages := ["db48"] }

/-- Settings whose selected variants are out of order, exposing the in-place
sort. -/
def sampleSettingsUnsorted : Settings :=
  { sampleSettings with variants := ⟨["b", "a"], []⟩ }

/-- The release list of the spec's resolution example: a flagged pre-release
`v2.12.0-rc1` plus the stable `v2.11.5` (newer) and `v2.11.4` (older). -/
def sampleReleases : List GitHubRelease :=
  [⟨"v2.12.0-rc1", true, 300⟩, ⟨"v2.11.5", false, 200⟩,
    ⟨"v2.11.4", false, 100⟩]

set_option maxRecDepth 4096 in
/-- Validation of the RIPEMD-160 embedding against the published test vector
for the empty message. -/
theorem ripemd160Hex_empty_vector :
    ripemd160Hex [] = "9c1185a5c5e9fc54612808977ee8f548b2258d31" := by decide

set_option maxRecDepth 4096 in
/-- Validation of the RIPEMD-160 embedding against the published test vector
for the message `abc`. -/
theorem ripemd160Hex_abc_vector :
    ripemd160Hex "abc".data = "8eb208f7e05d987a9b044a8e98c6b087f15a0bfc" := by
  decide

/-! ## Order properties of the UTF-16 comparator -/

/-- The code-unit order is total. -/
theorem leK_total : ∀ x y : List Nat, leK x y = true ∨ leK y x = true := by
  intro x
  induction x with
  | nil => intro y; left; rfl
  | cons a xs ih =>
    intro y
    cases y with
    | nil => right; rfl
    | cons b ys =>
      rcases Nat.lt_trichotomy a b with h | h | h
      · left; simp [leK, h]
      · subst h
        rcases ih ys with hh | hh
        · left; simp [leK, Nat.lt_irrefl, hh]
        · right; simp [leK, Nat.lt_irrefl, hh]
      · right; simp [leK, h]

/-- The code-unit order is transitive. -/
theorem leK_trans : ∀ x y z : List Nat,
    leK x y = true → leK y z = true → leK x z = true := by
  intro x
  induction x with
  | nil => intro y z _ _; rfl
  | cons a xs ih =>
    intro y z h1 h2
    cases y with
    | nil => simp [leK] at h1
    | cons b ys =>
      cases z with
      | nil => simp [leK] at h2
      | cons c zs =>
        simp only [leK] at h1 h2 ⊢
        by_cases hab : a < b
        · by_cases hbc : b < c
          · rw [if_pos (Nat.lt_trans hab hbc)]
          · by_cases hcb : c < b
            · rw [if_neg hbc, if_pos hcb] at h2
              exact absurd h2 (by simp)
            · have hbc' : b = c :=
                Nat.le_antisymm (Nat.le_of_not_lt hcb) (Nat.le_of_not_lt hbc)
              subst hbc'
              rw [if_pos hab]
        · by_cases hba : b < a
          · rw [if_neg hab, if_pos hba] at h1
            exact absurd h1 (by simp)
          · have hab' : a = b :=
              Nat.le_antisymm (Nat.le_of_not_lt hba) (Nat.le_of_not_lt hab)
            subst hab'
            rw [if_neg (Nat.lt_irrefl a), if_neg (Nat.lt_irrefl a)] at h1
            by_cases hac : a < c
            · rw [if_pos hac]
            · by_cases hca : c < a
              · rw [if_neg hac, if_pos hca] at h2
                exact absurd h2 (by simp)
              · have hac' : a = c :=
                  Nat.le_antisymm (Nat.le_of_not_lt hca) (Nat.le_of_not_lt hac)
                subst hac'
                rw [if_neg (Nat.lt_irrefl a), if_neg (Nat.lt_irrefl a)] at h2 ⊢
                exact ih ys zs h1 h2

/-- The code-unit order is antisymmetric. -/
theorem leK_antisymm_keys : ∀ x y : List Nat,
    leK x y = true → leK y x = true → x = y := by
  intro x
  induction x with
  | nil =>
    intro y h1 h2
    cases y with
    | nil => rfl
    | cons b ys => simp [leK] at h2
  | cons a xs ih =>
    intro y h1 h2
    cases y with
    | nil => simp [leK] at h1
    | cons b ys =>
      simp only [leK] at h1 h2
      by_cases hab : a < b
      · rw [if_neg (Nat.lt_asymm hab), if_pos hab] at h2
        exact absurd h2 (by simp)
      · by_cases hba : b < a
        · rw [if_neg hab, if_pos hba] at h1
          exact absurd h1 (by simp)
        · have hab' : a = b :=
            Nat.le_antisymm (Nat.le_of_not_lt hba) (Nat.le_of_not_lt hab)
          subst hab'
          rw [if_neg (Nat.lt_irrefl a), if_neg (Nat.lt_irrefl a)] at h1 h2
          rw [ih ys h1 h2]

/-- `Char.toNat` is injective. -/
theorem char_toNat_injective {c₁ c₂ : Char} (h : c₁.toNat = c₂.toNat) :
    c₁ = c₂ := by
  have h2 := congrArg Char.ofNat h
  rwa [Char.ofNat_toNat, Char.ofNat_toNat] at h2

/-- A Unicode scalar value is below the surrogate range or above it. -/
theorem char_scalar_range (c : Char) :
    c.toNat < 55296 ∨ (57343 < c.toNat ∧ c.toNat < 1114112) := c.valid

/-- UTF-16 encoding is injective on character sequences: the leading code
unit of a BMP scalar is never a surrogate, so the encoding is a prefix code. -/
theorem u16Key_inj : ∀ l₁ l₂ : List Char, u16Key l₁ = u16Key l₂ → l₁ = l₂ := by
  have hne : ∀ c : Char, u16 c ≠ [] := by
    intro c
    unfold u16
    by_cases h : c.toNat < 65536 <;> simp [h]
  intro l₁
  induction l₁ with
  | nil =>
    intro l₂ h
    cases l₂ with
    | nil => rfl
    | cons d ds =>
      simp only [u16Key] at h
      rcases List.append_eq_nil.mp h.symm with ⟨hd, _⟩
      exact absurd hd (hne d)
  | cons c cs ih =>
    intro l₂ h
    cases l₂ with
    | nil =>
      simp only [u16Key] at h
      rcases List.append_eq_nil.mp h with ⟨hd, _⟩
      exact absurd hd (hne c)
    | cons d ds =>
      simp only [u16Key] at h
      by_cases hc : c.toNat < 65536 <;> by_cases hd : d.toNat < 65536
      · simp only [u16, if_pos hc, if_pos hd, List.cons_append, List.nil_append,
          List.cons.injEq] at h
        obtain ⟨h1, h2⟩ := h
        rw [char_toNat_injective h1, ih ds h2]
      · simp only [u16, if_pos hc, if_neg hd, List.cons_append, List.nil_append,
          List.cons.injEq] at h
        obtain ⟨h1, -⟩ := h
        exfalso
        have hdv := char_scalar_range d
        have hcv := char_scalar_range c
        omega
      · simp only [u16, if_neg hc, if_pos hd, List.cons_append, List.nil_append,
          List.cons.injEq] at h
        obtain ⟨h1, -⟩ := h
        exfalso
        have hdv := char_scalar_range d
        have hcv := char_scalar_range c
        omega
      · simp only [u16, if_neg hc, if_neg hd, List.cons_append, List.nil_append,
          List.cons.injEq] at h
        obtain ⟨h1, h2, h3⟩ := h
        have hcd : c.toNat = d.toNat := by omega
        rw [char_toNat_injective hcd, ih ds h3]

/-- The JS string comparator is total. -/
theorem jsLe_isTotal : IsTotal String jsLe :=
  ⟨fun a b => leK_total (u16Key a.data) (u16Key b.data)⟩

/-- The JS string comparator is transitive. -/
theorem jsLe_isTrans : IsTrans String jsLe :=
  ⟨fun _ _ _ h1 h2 => leK_trans _ _ _ h1 h2⟩

/-- The JS string comparator is antisymmetric. -/
theorem jsLe_isAntisymm : IsAntisymm String jsLe := by
  refine ⟨fun a b h1 h2 => ?_⟩
  have hd := u16Key_inj _ _ (leK_antisymm_keys _ _ h1 h2)
  cases a with
  | mk da =>
    cases b with
    | mk db => exact congrArg String.mk (by simpa using hd)

/-- Sorting with the JS comparator depends only on the multiset of elements:
permuted inputs sort to the same list. -/
theorem jsSortStrings_perm_eq {l₁ l₂ : List String} (h : l₁.Perm l₂) :
    jsSortStrings l₁ = jsSortStrings l₂ := by
  haveI := jsLe_isTotal
  haveI := jsLe_isTrans
  haveI := jsLe_isAntisymm
  exact List.eq_of_perm_of_sorted
    ((List.perm_insertionSort jsLe l₁).trans
      (h.trans (List.perm_insertionSort jsLe l₂).symm))
    (List.sorted_insertionSort jsLe l₁)
    (List.sorted_insertionSort jsLe l₂)

/-! ## Unique decodability of the `JSON.stringify` fragment -/

/-- `fromHexDigit` undoes `hexDigit` below 16. -/
theorem fromHexDigit_hexDigit {n : Nat} (h : n < 16) :
    fromHexDigit (hexDigit n) = some n := by
  interval_cases n <;> decide

/-- Parsing the escape of one character consumes exactly that escape. -/
theorem parseStrGo_escChar (c : Char) (l : List Char) :
    parseStrGo (escChar c ++ l)
      = (parseStrGo l).map (fun p => (c :: p.1, p.2)) := by
  unfold escChar
  by_cases h1 : c = '"'
  · subst h1
    rw [parseStrGo.eq_def]
    simp [show ¬ ('\\' : Char) = '"' by decide]
  · by_cases h2 : c = '\\'
    · subst h2
      rw [if_neg h1, if_pos rfl, parseStrGo.eq_def]
      simp [show ¬ ('\\' : Char) = '"' by decide]
    · by_cases h3 : c = '\x08'
      · subst h3
        rw [if_neg h1, if_neg h2, if_pos rfl, parseStrGo.eq_def]
        simp [show ¬ ('\\' : Char) = '"' by decide,
          show ¬ ('b' : Char) = '"' by decide,
          show ¬ ('b' : Char) = '\\' by decide]
      · by_cases h4 : c = '\x09'
        · subst h4
          rw [if_neg h1, if_neg h2, if_neg h3, if_pos rfl, parseStrGo.eq_def]
          simp [show ¬ ('\\' : Char) = '"' by decide,
            show ¬ ('t' : Char) = '"' by decide,
            show ¬ ('t' : Char) = '\\' by decide,
            show ¬ ('t' : Char) = 'b' by decide]
        · by_cases h5 : c = '\x0a'
          · subst h5
            rw [if_neg h1, if_neg h2, if_neg h3, if_neg h4, if_pos rfl,
              parseStrGo.eq_def]
            simp [show ¬ ('\\' : Char) = '"' by decide,
              show ¬ ('n' : Char) = '"' by decide,
              show ¬ ('n' : Char) = '\\' by decide,
              show ¬ ('n' : Char) = 'b' by decide,
              show ¬ ('n' : Char) = 't' by decide]
          · by_cases h6 : c = '\x0c'
            · subst h6
              rw [if_neg h1, if_neg h2, if_neg h3, if_neg h4, if_neg h5,
                if_pos rfl, parseStrGo.eq_def]
              simp [show ¬ ('\\' : Char) = '"' by decide,
                show ¬ ('f' : Char) = '"' by decide,
                show ¬ ('f' : Char) = '\\' by decide,
                show ¬ ('f' : Char) = 'b' by decide,
                show ¬ ('f' : Char) = 't' by decide,
                show ¬ ('f' : Char) = 'n' by decide]
            · by_cases h7 : c = '\x0d'
              · subst h7
                rw [if_neg h1, if_neg h2, if_neg h3, if_neg h4, if_neg h5,
                  if_neg h6, if_pos rfl, parseStrGo.eq_def]
                simp [show ¬ ('\\' : Char) = '"' by decide,
                  show ¬ ('r' : Char) = '"' by decide,
                  show ¬ ('r' : Char) = '\\' by decide,
                  show ¬ ('r' : Char) = 'b' by decide,
                  show ¬ ('r' : Char) = 't' by decide,
                  show ¬ ('r' : Char) = 'n' by decide,
                  show ¬ ('r' : Char) = 'f' by decide]
              · by_cases h8 : c.toNat < 32
                · have hd16 : c.toNat / 16 < 16 := by omega
                  have hm16 : c.toNat % 16 < 16 := by omega
                  rw [if_neg h1, if_neg h2, if_neg h3, if_neg h4, if_neg h5,
                    if_neg h6, if_neg h7, if_pos h8, parseStrGo.eq_def]
                  simp only [List.cons_append, List.nil_append,
                    fromHexDigit_hexDigit hd16, fromHexDigit_hexDigit hm16,
                    show fromHexDigit '0' = some 0 by decide,
                    show ¬ ('\\' : Char) = '"' by decide,
                    show ¬ ('u' : Char) = '"' by decide,
                    show ¬ ('u' : Char) = '\\' by decide,
                    show ¬ ('u' : Char) = 'b' by decide,
                    show ¬ ('u' : Char) = 't' by decide,
                    show ¬ ('u' : Char) = 'n' by decide,
                    show ¬ ('u' : Char) = 'f' by decide,
                    show ¬ ('u' : Char) = 'r' by decide,
                    ite_false, ite_true, if_neg, if_pos]
                  rw [show 4096 * 0 + 256 * 0 + 16 * (c.toNat / 16)
                      + c.toNat % 16 = c.toNat by omega, Char.ofNat_toNat]
                · rw [if_neg h1, if_neg h2, if_neg h3, if_neg h4, if_neg h5,
                    if_neg h6, if_neg h7, if_neg h8]
                  rw [List.cons_append, List.nil_append, parseStrGo.eq_def]
                  simp [h1, h2]

/-- Parsing an escaped body up to a closing quote recovers the body. -/
theorem parseStrGo_escList (s rest : List Char) :
    parseStrGo (escList s ++ '"' :: rest) = some (s, rest) := by
  induction s with
  | nil =>
    simp only [escList, List.nil_append]
    rw [parseStrGo.eq_def]
    simp
  | cons c cs ih =>
    simp only [escList, List.append_assoc]
    rw [parseStrGo_escChar, ih]
    rfl

/-- Parsing a serialized string recovers it together with the rest of the
input. -/
theorem parseQuoted_qList (x r : List Char) :
    parseQuoted (qList x ++ r) = some (x, r) := by
  show parseQuoted ('"' :: (escList x ++ ['"']) ++ r) = _
  simp only [List.cons_append, List.append_assoc, List.singleton_append]
  show parseStrGo (escList x ++ '"' :: r) = _
  exact parseStrGo_escList x r

/-- Serialized strings can be cancelled from the front of an equation. -/
theorem qList_cancel {x₁ x₂ r₁ r₂ : List Char}
    (h : qList x₁ ++ r₁ = qList x₂ ++ r₂) : x₁ = x₂ ∧ r₁ = r₂ := by
  have h2 := congrArg parseQuoted h
  rw [parseQuoted_qList, parseQuoted_qList] at h2
  injection h2 with h3
  injection h3 with h4 h5
  exact ⟨h4, h5⟩

/-- Every nonempty serialized element list begins with a quote. -/
theorem sepQ_cons_head (y : List Char) (ys : List (List Char)) :
    ∃ t, sepQ (y :: ys) = '"' :: t := by
  cases ys with
  | nil => exact ⟨escList y ++ ['"'], rfl⟩
  | cons z zs =>
    refine ⟨escList y ++ ['"'] ++ ',' :: sepQ (z :: zs), ?_⟩
    simp [sepQ, qList]

/-- Serialized element lists (up to the closing bracket) can be cancelled. -/
theorem sepQ_cancel : ∀ (l₁ l₂ : List (List Char)) (r₁ r₂ : List Char),
    sepQ l₁ ++ ']' :: r₁ = sepQ l₂ ++ ']' :: r₂ → l₁ = l₂ ∧ r₁ = r₂ := by
  intro l₁
  induction l₁ with
  | nil =>
    intro l₂ r₁ r₂ h
    cases l₂ with
    | nil =>
      simp only [sepQ, List.nil_append] at h
      injection h with _ h2
      exact ⟨rfl, h2⟩
    | cons y ys =>
      obtain ⟨t, ht⟩ := sepQ_cons_head y ys
      rw [ht] at h
      simp only [List.nil_append, List.cons_append] at h
      injection h with h1 _
      exact absurd h1 (by decide)
  | cons x xs ih =>
    intro l₂ r₁ r₂ h
    cases l₂ with
    | nil =>
      obtain ⟨t, ht⟩ := sepQ_cons_head x xs
      rw [ht] at h
      simp only [List.nil_append, List.cons_append] at h
      injection h with h1 _
      exact absurd h1 (by decide)
    | cons y ys =>
      cases xs with
      | nil =>
        cases ys with
        | nil =>
          simp only [sepQ] at h
          obtain ⟨hx, ht⟩ := qList_cancel h
          injection ht with _ h2
          exact ⟨by rw [hx], h2⟩
        | cons z zs =>
          simp only [sepQ, List.append_assoc, List.cons_append] at h
          obtain ⟨hx, ht⟩ := qList_cancel h
          injection ht with h1 _
          exact absurd h1 (by decide)
      | cons w ws =>
        cases ys with
        | nil =>
          simp only [sepQ, List.append_assoc, List.cons_append] at h
          obtain ⟨hx, ht⟩ := qList_cancel h
          injection ht with h1 _
          exact absurd h1 (by decide)
        | cons z zs =>
          simp only [sepQ, List.append_assoc, List.cons_append] at h
          obtain ⟨hx, ht⟩ := qList_cancel h
          injection ht with _ h2
          obtain ⟨hl, hr⟩ := ih (z :: zs) r₁ r₂ h2
          exact ⟨by rw [hx, hl], hr⟩

/-- Serialized arrays can be cancelled from the front of an equation. -/
theorem arrList_cancel {l₁ l₂ : List (List Char)} {r₁ r₂ : List Char}
    (h : arrList l₁ ++ r₁ = arrList l₂ ++ r₂) : l₁ = l₂ ∧ r₁ = r₂ := by
  simp only [arrList, List.cons_append, List.append_assoc,
    List.singleton_append] at h
  injection h with _ h2
  exact sepQ_cancel l₁ l₂ r₁ r₂ h2

/-- `String.data` is injective. -/
theorem string_data_injective : Function.Injective String.data := by
  intro a b h
  cases a with
  | mk da =>
    cases b with
    | mk db => exact congrArg String.mk h

/-- The serialized configuration record determines its five components. -/
theorem configList_inj {p₁ p₂ v₁ v₂ : List Char}
    {a₁ a₂ b₁ b₂ c₁ c₂ : List (List Char)}
    (h : configList p₁ v₁ a₁ b₁ c₁ = configList p₂ v₂ a₂ b₂ c₂) :
    p₁ = p₂ ∧ v₁ = v₂ ∧ a₁ = a₂ ∧ b₁ = b₂ ∧ c₁ = c₂ := by
  unfold configList at h
  simp only [List.cons_append, List.append_assoc, List.nil_append,
    List.cons.injEq, eq_self_iff_true, true_and] at h
  obtain ⟨hp, h⟩ := qList_cancel h
  simp only [List.cons_append, List.append_assoc, List.nil_append,
    List.cons.injEq, eq_self_iff_true, true_and] at h
  obtain ⟨hv, h⟩ := qList_cancel h
  simp only [List.cons_append, List.append_assoc, List.nil_append,
    List.cons.injEq, eq_self_iff_true, true_and] at h
  obtain ⟨ha, h⟩ := arrList_cancel h
  simp only [List.cons_append, List.append_assoc, List.nil_append,
    List.cons.injEq, eq_self_iff_true, true_and] at h
  obtain ⟨hb, h⟩ := arrList_cancel h
  simp only [List.cons_append, List.append_assoc, List.nil_append,
    List.cons.injEq, eq_self_iff_true, true_and] at h
  obtain ⟨hc, -⟩ := arrList_cancel h
  exact ⟨hp, hv, ha, hb, hc⟩

/-- The canonical configuration string determines prefix, version and the
three sorted lists. -/
theorem configStringOf_inj {s₁ s₂ : Settings}
    (h : configStringOf s₁ = configStringOf s₂) :
    s₁.prefixPath = s₂.prefixPath ∧ s₁.version = s₂.version
    ∧ jsSortStrings s₁.variants.select = jsSortStrings s₂.variants.select
    ∧ jsSortStrings s₁.variants.deselect = jsSortStrings s₂.variants.deselect
    ∧ jsSortStrings s₁.sources = jsSortStrings s₂.sources := by
  unfold configStringOf at h
  have hmap := List.map_injective_iff.mpr string_data_injective
  obtain ⟨hp, hv, ha, hb, hc⟩ :=
    configList_inj (congrArg String.data h)
  exact ⟨string_data_injective hp, string_data_injective hv,
    hmap ha, hmap hb, hmap hc⟩

/-! ## Claim theorems -/

/-- C1: for every settings record in which `resolvedVersion` is present (a
non-empty string — the source's `||` defaulting treats `''` as absent), the
full-installation cache key returned by `generateImprovedCacheKey` begins
with `macports-{resolvedVersion}-{architecture}-{platformMajor}`; in this
snapshot that prefix is the entire key, so the version segment prefers
`resolvedVersion` over `version`. -/
theorem improvedCacheKey_prefers_resolvedVersion (s : Settings)
    (p : PlatformInfo) (v : String) (hv : s.resolvedVersion = some v)
    (hne : v ≠ "") :
    ("macports-" ++ v ++ "-" ++ p.architecture ++ "-"
        ++ platformMajor p.versionNumber).data
      <+: (CacheUtil.generateImprovedCacheKey s p).1.cacheKey.data
    ∧ (CacheUtil.generateImprovedCacheKey s p).1.cacheKey
      = "macports-" ++ v ++ "-" ++ p.architecture ++ "-"
        ++ platformMajor p.versionNumber := by
  have hkey : (CacheUtil.generateImprovedCacheKey s p).1.cacheKey
      = "macports-" ++ v ++ "-" ++ p.architecture ++ "-"
        ++ platformMajor p.versionNumber := by
    unfold CacheUtil.generateImprovedCacheKey jsOrElse
    rw [hv]
    simp [hne]
  exact ⟨hkey ▸ List.prefix_refl _, hkey⟩

/-- C1 witness: the test fixture with `version = "latest"` resolved to
`2.11.6` on Sequoia/arm64. -/
theorem improvedCacheKey_prefers_resolvedVersion_witness :
    sampleSettingsResolved.resolvedVersion = some "2.11.6"
    ∧ ("2.11.6" : String) ≠ ""
    ∧ (CacheUtil.generateImprovedCacheKey sampleSettingsResolved
          samplePlatform).1.cacheKey
        = "macports-" ++ "2.11.6" ++ "-" ++ samplePlatform.architecture ++ "-"
          ++ platformMajor samplePlatform.versionNumber :=
  ⟨rfl, by decide,
    (improvedCacheKey_prefers_resolvedVersion sampleSettingsResolved
      samplePlatform "2.11.6" rfl (by decide)).2⟩

/-- C3: evaluation of `generatePortsCacheKey` at the failing input — with
`sourcesProvider = auto` and `gitRef = "develop"` the ref segment of the key
is `develop`, not the `master` promised by the claim and by the function's own
comment (`For rsync: git_ref is ignored`). -/
theorem portsCacheKey_uses_gitRef_under_rsync :
    CacheUtil.generatePortsCacheKey sampleSettingsAutoRef samplePlatform
      = "macports-ports-rsync-develop-15" := by decide

/-- C2 counterexample: the second half of the claim — *every* pair of
settings differing in version has different `configHash` values — cannot hold
for the legacy improved key, whose `configHash` is the RIPEMD-160 digest
truncated to 16 hex characters: infinitely many version strings map into the
finitely many strings of length at most 16, so two settings that differ only
in version share a `configHash`. -/
theorem legacyConfigHash_truncation_collides :
    ∃ s₁ s₂ : Settings, s₁.prefixPath = s₂.prefixPath
      ∧ s₁.variants = s₂.variants ∧ s₁.sources = s₂.sources
      ∧ s₁.version ≠ s₂.version
      ∧ legacyConfigHash s₁ = legacyConfigHash s₂ := by
  have hbound : ∀ c : Char, c.toNat < 1114112 := by
    intro c
    rcases char_scalar_range c with h | ⟨_, h⟩ <;> omega
  haveI hfin : Finite Char :=
    Finite.of_injective (fun c : Char => (⟨c.toNat, hbound c⟩ : Fin 1114112))
      (fun a b hab => char_toNat_injective (by simpa using congrArg Fin.val hab))
  have hsub : ∀ (s : String) (n : Nat), (jsSubstringTo s n).length ≤ n := by
    intro s n
    show (s.data.take n).length ≤ n
    exact List.length_take_le n s.data
  have hmaps : Set.MapsTo
      (fun n : ℕ => legacyConfigHash
        { sampleSettings with version := String.mk (List.replicate n 'a') })
      Set.univ {s : String | s.length ≤ 16} := by
    intro n _
    exact hsub _ 16
  have hstr : {s : String | s.length ≤ 16}.Finite := by
    have himg := (List.finite_length_le Char 16).image String.mk
    apply Set.Finite.subset himg
    intro s hs
    exact ⟨s.data, hs, by cases s; rfl⟩
  obtain ⟨m, -, n, -, hmn, hFeq⟩ :=
    Set.infinite_univ.exists_ne_map_eq_of_mapsTo hmaps hstr
  refine ⟨{ sampleSettings with version := String.mk (List.replicate m 'a') },
    { sampleSettings with version := String.mk (List.replicate n 'a') },
    rfl, rfl, rfl, ?_, hFeq⟩
  intro he
  apply hmn
  have hdata := congrArg String.data he
  simpa using congrArg List.length hdata

/-- C2 (amended): the full cache key of the legacy hash-based
`generateImprovedCacheKey` (and its `configHash`) is invariant under
reordering of `variants.select`, `variants.deselect` and `sources`
(sort-before-hash); and any change to prefix, version, variant membership or
source membership changes the canonical serialized configuration that is fed
to the hash.  (Distinctness of the truncated digests themselves holds for no
function into 16-character strings, see the counterexample.) -/
theorem improvedCacheKey_invariance_and_sensitivity
    (s₁ s₂ : Settings) (p : PlatformInfo) (env : ActionEnv) :
    (s₂.prefixPath = s₁.prefixPath → s₂.version = s₁.version →
      s₂.variants.select.Perm s₁.variants.select →
      s₂.variants.deselect.Perm s₁.variants.deselect →
      s₂.sources.Perm s₁.sources →
      legacyConfigHash s₂ = legacyConfigHash s₁
      ∧ (CacheUtilLegacy.generateImprovedCacheKey s₂ p env).1
          = (CacheUtilLegacy.generateImprovedCacheKey s₁ p env).1)
    ∧ ((s₁.prefixPath ≠ s₂.prefixPath ∨ s₁.version ≠ s₂.version
        ∨ membershipDiffers s₁.variants.select s₂.variants.select
        ∨ membershipDiffers s₁.variants.deselect s₂.variants.deselect
        ∨ membershipDiffers s₁.sources s₂.sources) →
      configStringOf s₁ ≠ configStringOf s₂) := by
  constructor
  · intro hpre hver hsel hdes hsrc
    have hcs : configStringOf s₂ = configStringOf s₁ := by
      unfold configStringOf
      rw [hpre, hver, jsSortStrings_perm_eq hsel, jsSortStrings_perm_eq hdes,
        jsSortStrings_perm_eq hsrc]
    have hch : legacyConfigHash s₂ = legacyConfigHash s₁ := by
      unfold legacyConfigHash
      rw [hcs]
    refine ⟨hch, ?_⟩
    unfold CacheUtilLegacy.generateImprovedCacheKey
    rw [hch, hver]
  · intro hdiff heq
    obtain ⟨hp, hv, ha, hb, hc⟩ := configStringOf_inj heq
    have hmem : ∀ l₁ l₂ : List String,
        jsSortStrings l₁ = jsSortStrings l₂ → ¬ membershipDiffers l₁ l₂ := by
      intro l₁ l₂ hs ⟨x, hx⟩
      apply hx
      constructor
      · intro hx1
        have h1 : x ∈ jsSortStrings l₁ :=
          (List.Perm.mem_iff (List.perm_insertionSort jsLe l₁)).mpr hx1
        rw [hs] at h1
        exact (List.Perm.mem_iff (List.perm_insertionSort jsLe l₂)).mp h1
      · intro hx2
        have h2 : x ∈ jsSortStrings l₂ :=
          (List.Perm.mem_iff (List.perm_insertionSort jsLe l₂)).mpr hx2
        rw [← hs] at h2
        exact (List.Perm.mem_iff (List.perm_insertionSort jsLe l₁)).mp h2
    rcases hdiff with h | h | h | h | h
    · exact h hp
    · exact h hv
    · exact hmem _ _ ha h
    · exact hmem _ _ hb h
    · exact hmem _ _ hc h

/-- C2 witness: reordering the selected variants and sources leaves the
legacy combined key unchanged, while changing the version changes the
serialized configuration. -/
theorem improvedCacheKey_invariance_and_sensitivity_witness :
    (({ sampleSettings with
        variants := ⟨["b", "a"], []⟩
        sources := ["s2", "s1"] } : Settings).variants.select.Perm
      ({ sampleSettings with
        variants := ⟨["a", "b"], []⟩
        sources := ["s1", "s2"] } : Settings).variants.select
    ∧ legacyConfigHash
        { sampleSettings with
          variants := ⟨["b", "a"], []⟩
          sources := ["s2", "s1"] }
      = legacyConfigHash
        { sampleSettings with
          variants := ⟨["a", "b"], []⟩
          sources := ["s1", "s2"] })
    ∧ (sampleSettings.version ≠ sampleSettingsResolved.version
      ∧ configStringOf sampleSettings ≠ configStringOf sampleSettingsResolved) := by
  constructor
  · constructor
    · decide
    · exact ((improvedCacheKey_invariance_and_sensitivity
        { sampleSettings with
          variants := ⟨["a", "b"], []⟩
          sources := ["s1", "s2"] }
        { sampleSettings with
          variants := ⟨["b", "a"], []⟩
          sources := ["s2", "s1"] }
        samplePlatform ⟨none, none, none, "1.0.0"⟩).1
        rfl rfl (by decide) (by decide) (by decide)).1
  · exact ⟨by decide,
      (improvedCacheKey_invariance_and_sensitivity sampleSettings
        sampleSettingsResolved samplePlatform ⟨none, none, none, "1.0.0"⟩).2
        (Or.inr (Or.inl (by decide)))⟩

/-- C4 counterexample: `generateCacheKey` sorts `settings.variants.select` in
place (`Array.prototype.sort` mutates its receiver), so with selected
variants `["b", "a"]` the array reads `["a", "b"]` after the call — not
element-for-element, order-for-order identical to its pre-call value. -/
theorem generateCacheKey_mutates_settings :
    (CacheUtil.generateCacheKey sampleSettingsUnsorted
        samplePlatform).2.variants.select = ["a", "b"]
    ∧ sampleSettingsUnsorted.variants.select = ["b", "a"]
    ∧ (CacheUtil.generateCacheKey sampleSettingsUnsorted
        samplePlatform).2.variants.select
      ≠ sampleSettingsUnsorted.variants.select := by
  decide

/-- C4 (amended): the cache-key derivations read `Settings` and
`PlatformInfo` only, but `generateCacheKey` (and the superseded hash-based
`generateImprovedCacheKey`) sort the three list fields in place: after the
call, `variants.select`, `variants.deselect` and `sources` hold the same
elements as before, in UTF-16-sorted order (so the arrays are unchanged
exactly when they were already sorted), and every other field is untouched;
the current `generateImprovedCacheKey` leaves the record entirely
unchanged. -/
theorem cacheKey_derivations_state_effect (s : Settings) (p : PlatformInfo)
    (env : ActionEnv) :
    ((CacheUtil.generateCacheKey s p).2.variants.select.Perm s.variants.select
      ∧ (CacheUtil.generateCacheKey s p).2.variants.deselect.Perm
          s.variants.deselect
      ∧ (CacheUtil.generateCacheKey s p).2.sources.Perm s.sources
      ∧ List.Sorted jsLe (CacheUtil.generateCacheKey s p).2.variants.select
      ∧ List.Sorted jsLe (CacheUtil.generateCacheKey s p).2.variants.deselect
      ∧ List.Sorted jsLe (CacheUtil.generateCacheKey s p).2.sources
      ∧ (CacheUtil.generateCacheKey s p).2
          = { s with
              variants := ⟨jsSortStrings s.variants.select,
                jsSortStrings s.variants.deselect⟩
              sources := jsSortStrings s.sources })
    ∧ (CacheUtil.generateImprovedCacheKey s p).2 = s
    ∧ (CacheUtilLegacy.generateImprovedCacheKey s p env).2
        = (CacheUtil.generateCacheKey s p).2 := by
  haveI := jsLe_isTotal
  haveI := jsLe_isTrans
  exact ⟨⟨List.perm_insertionSort jsLe s.variants.select,
    List.perm_insertionSort jsLe s.variants.deselect,
    List.perm_insertionSort jsLe s.sources,
    List.sorted_insertionSort jsLe s.variants.select,
    List.sorted_insertionSort jsLe s.variants.deselect,
    List.sorted_insertionSort jsLe s.sources, rfl⟩, rfl, rfl⟩

/-- C5 counterexample: the stable release tagged `v2.0-march` carries none of
the `-rc`, `-beta`, `-alpha` suffixes (not even as inner substrings of its
lower-cased tag), yet the resolver's unanchored pattern finds `rc` inside
`march`, flags it as a pre-release and excludes it, leaving no stable
candidate. -/
theorem stable_tag_excluded_by_unanchored_pattern :
    (¬ ("-rc".data <:+: (jsToLower "v2.0-march").data))
    ∧ (¬ ("-beta".data <:+: (jsToLower "v2.0-march").data))
    ∧ (¬ ("-alpha".data <:+: (jsToLower "v2.0-march").data))
    ∧ (⟨"v2.0-march", false, 100⟩ : GitHubRelease).prerelease = false
    ∧ (toRelease ⟨"v2.0-march", false, 100⟩).isPrerelease = true
    ∧ findLatestStable [toRelease ⟨"v2.0-march", false, 100⟩] = none := by
  decide

/-- C5 (amended): a fetched release is excluded exactly when the source flags
it as a pre-release or its tag contains, case-insensitively, `rc`, `beta` or
`alpha` anywhere (the hyphen in the pattern is optional and the match is not
anchored to a suffix); when a selection is made it is a non-excluded fetched
release with maximal publish timestamp whose version is its tag with a
leading `v` stripped; and whenever some fetched release is not excluded, a
selection is made. -/
theorem findLatestStable_spec (ghs : List GitHubRelease) :
    (∀ gh ∈ ghs, ((toRelease gh).isPrerelease = true
      ↔ (gh.prerelease = true ∨ prereleasePattern gh.tag_name = true)))
    ∧ (∀ r, findLatestStable (ghs.map toRelease) = some r →
      r ∈ ghs.map toRelease ∧ r.isPrerelease = false
      ∧ (∀ r' ∈ ghs.map toRelease, r'.isPrerelease = false →
          r'.publishedAt ≤ r.publishedAt)
      ∧ r.version = stripLeadingV r.tag)
    ∧ ((∃ gh ∈ ghs, gh.prerelease = false ∧ prereleasePattern gh.tag_name = false)
      → ∃ r, findLatestStable (ghs.map toRelease) = some r) := by
  haveI htr : IsTrans Release descPublished :=
    ⟨fun _ _ _ hab hbc => le_trans hbc hab⟩
  haveI hto : IsTotal Release descPublished :=
    ⟨fun a b => le_total b.publishedAt a.publishedAt⟩
  refine ⟨?_, ?_, ?_⟩
  · intro gh _
    simp [toRelease]
  · intro r hr
    unfold findLatestStable at hr
    set stable := (ghs.map toRelease).filter (fun r => !r.isPrerelease) with hst
    by_cases hlen : stable.length = 0
    · rw [if_pos hlen] at hr
      exact absurd hr (by simp)
    · rw [if_neg hlen] at hr
      have hperm := List.perm_insertionSort descPublished stable
      rcases List.head?_eq_some_iff.mp hr with ⟨tl, htl⟩
      have hrmem : r ∈ stable := hperm.mem_iff.mp (htl ▸ List.mem_cons_self r tl)
      have hmemmap : r ∈ ghs.map toRelease := (List.mem_filter.mp hrmem).1
      refine ⟨hmemmap, ?_, ?_, ?_⟩
      · have := (List.mem_filter.mp hrmem).2
        simpa using this
      · intro r' hr' hstable
        have hr'stable : r' ∈ stable := by
          rw [hst]
          exact List.mem_filter.mpr ⟨hr', by simp [hstable]⟩
        have : r' ∈ r :: tl := htl ▸ hperm.mem_iff.mpr hr'stable
        rcases List.mem_cons.mp this with rfl | hmem
        · exact le_refl _
        · have hsorted := List.sorted_insertionSort descPublished stable
          rw [htl] at hsorted
          exact List.rel_of_sorted_cons hsorted r' hmem
      · rcases List.mem_map.mp hmemmap with ⟨gh, _, rfl⟩
        rfl
  · rintro ⟨gh, hgh, hflag, hpat⟩
    have hmem : toRelease gh ∈
        (ghs.map toRelease).filter (fun r => !r.isPrerelease) := by
      refine List.mem_filter.mpr ⟨List.mem_map_of_mem toRelease hgh, ?_⟩
      simp [toRelease, hflag, hpat]
    unfold findLatestStable
    have hlen : ((ghs.map toRelease).filter (fun r => !r.isPrerelease)).length ≠ 0 := by
      intro h0
      rw [List.length_eq_zero] at h0
      rw [h0] at hmem
      exact absurd hmem (List.not_mem_nil _)
    rw [if_neg hlen]
    have hperm := List.perm_insertionSort descPublished
      ((ghs.map toRelease).filter (fun r => !r.isPrerelease))
    cases hs : (((ghs.map toRelease).filter
        (fun r => !r.isPrerelease)).insertionSort descPublished) with
    | nil =>
      rw [hs] at hperm
      exact absurd hperm.length_eq.symm hlen
    | cons a tl => exact ⟨a, rfl⟩

/-- C5 witness: given the spec's own example list — a flagged `v2.12.0-rc1`
pre-release plus stable `v2.11.5` (newer) and `v2.11.4` (older) — the
resolver selects `v2.11.5`, a stable maximal-timestamp release whose version
strips the leading `v`. -/
theorem findLatestStable_spec_witness :
    findLatestStable (sampleReleases.map toRelease)
      = some (toRelease ⟨"v2.11.5", false, 200⟩)
    ∧ (toRelease ⟨"v2.11.5", false, 200⟩ ∈ sampleReleases.map toRelease
      ∧ (toRelease ⟨"v2.11.5", false, 200⟩).isPrerelease = false
      ∧ (∀ r' ∈ sampleReleases.map toRelease,
          r'.isPrerelease = false →
          r'.publishedAt ≤ (toRelease ⟨"v2.11.5", false, 200⟩).publishedAt)
      ∧ (toRelease ⟨"v2.11.5", false, 200⟩).version
          = stripLeadingV (toRelease ⟨"v2.11.5", false, 200⟩).tag) :=
  ⟨by decide,
    (findLatestStable_spec sampleReleases).2.1
      (toRelease ⟨"v2.11.5", false, 200⟩) (by decide)⟩

/-- C6 helper: inputs that lower-case to `latest` take the network branch. -/
theorem resolve_network_branch (input : String)
    (net : Nat → Except String (List GitHubRelease))
    (h : jsToLower input = "latest") :
    resolve input net
      = match fetchReleases net with
        | (Except.error _, delays) =>
          ⟨⟨fallbackVersion, true, input⟩, true, delays⟩
        | (Except.ok releases, delays) =>
          match findLatestStable releases with
          | none => ⟨⟨fallbackVersion, true, input⟩, true, delays⟩
          | some latestStable =>
            ⟨⟨latestStable.version, true, input⟩, true, delays⟩ := by
  unfold resolve
  rw [if_neg (by simp [h])]

/-- C6: every input whose case-insensitively trimmed form is not `latest`
returns verbatim with no network access and no retries, while `LATEST`,
`Latest` and `latest` all take the network branch and produce the same
version, `wasLatest` flag and delays (the `originalInput` field echoes the
verbatim input by construction). -/
theorem resolve_literal_vs_latest :
    (∀ (input : String) (net : Nat → Except String (List GitHubRelease)),
        jsTrim (jsToLower input) ≠ "latest" →
        resolve input net = ⟨⟨input, false, input⟩, false, []⟩)
    ∧ (∀ net : Nat → Except String (List GitHubRelease),
        (resolve "LATEST" net).usedNetwork = true
        ∧ (resolve "Latest" net).usedNetwork = true
        ∧ (resolve "latest" net).usedNetwork = true
        ∧ (resolve "LATEST" net).resolution.version
            = (resolve "latest" net).resolution.version
        ∧ (resolve "Latest" net).resolution.version
            = (resolve "latest" net).resolution.version
        ∧ (resolve "LATEST" net).resolution.wasLatest
            = (resolve "latest" net).resolution.wasLatest
        ∧ (resolve "Latest" net).resolution.wasLatest
            = (resolve "latest" net).resolution.wasLatest
        ∧ (resolve "LATEST" net).delays = (resolve "latest" net).delays
        ∧ (resolve "Latest" net).delays = (resolve "latest" net).delays) := by
  constructor
  · intro input net h
    have hlow : jsToLower input ≠ "latest" := by
      intro he
      exact h (by rw [he]; decide)
    unfold resolve
    rw [if_pos hlow]
  · intro net
    rw [resolve_network_branch "LATEST" net (by decide),
      resolve_network_branch "Latest" net (by decide),
      resolve_network_branch "latest" net (by decide)]
    rcases hf : fetchReleases net with ⟨res, delays⟩
    cases res with
    | error e => simp
    | ok releases =>
      rcases h2 : findLatestStable releases with _ | ls <;> simp [h2]

/-- C6 witness: the literal input `2.10.0` is returned verbatim without
touching the network. -/
theorem resolve_literal_vs_latest_witness :
    jsTrim (jsToLower "2.10.0") ≠ "latest"
    ∧ resolve "2.10.0" (fun _ => Except.error "offline")
        = ⟨⟨"2.10.0", false, "2.10.0"⟩, false, []⟩ :=
  ⟨by decide,
    resolve_literal_vs_latest.1 "2.10.0" (fun _ => Except.error "offline")
      (by decide)⟩

/-- C7: when all three query attempts fail, resolving `latest` returns the
hardcoded fallback `2.12.0` with `wasLatest = true` instead of an error,
after linearly increasing delays of `1000 * 1` and `1000 * 2` milliseconds;
and when the query succeeds but every release is filtered out as a
pre-release, the same fallback is returned with no retries. -/
theorem resolve_fallback_on_failure_or_no_stable
    (net : Nat → Except String (List GitHubRelease)) :
    (∀ e1 e2 e3, net 1 = Except.error e1 → net 2 = Except.error e2 →
      net 3 = Except.error e3 →
      resolve "latest" net
        = ⟨⟨fallbackVersion, true, "latest"⟩, true, [1000 * 1, 1000 * 2]⟩)
    ∧ (∀ ghs, net 1 = Except.ok ghs →
      (∀ gh ∈ ghs, (toRelease gh).isPrerelease = true) →
      resolve "latest" net = ⟨⟨fallbackVersion, true, "latest"⟩, true, []⟩) := by
  constructor
  · intro e1 e2 e3 h1 h2 h3
    rw [resolve_network_branch "latest" net (by decide)]
    unfold fetchReleases
    rw [h1, h2, h3]
  · intro ghs h1 hall
    rw [resolve_network_branch "latest" net (by decide)]
    have hstable : (ghs.map toRelease).filter (fun r => !r.isPrerelease) = [] := by
      rw [List.filter_eq_nil_iff]
      intro r hr
      rcases List.mem_map.mp hr with ⟨gh, hgh, rfl⟩
      simp [hall gh hgh]
    unfold fetchReleases findLatestStable
    rw [h1]
    simp [hstable]

/-- C7 witness: a network that always fails, and a network whose only release
is the pre-release `v2.12.0-rc1`. -/
theorem resolve_fallback_on_failure_or_no_stable_witness :
    ((fun _ => Except.error "boom" :
        Nat → Except String (List GitHubRelease)) 1 = Except.error "boom")
    ∧ resolve "latest" (fun _ => Except.error "boom")
        = ⟨⟨fallbackVersion, true, "latest"⟩, true, [1000 * 1, 1000 * 2]⟩
    ∧ (∀ gh ∈ [(⟨"v2.12.0-rc1", true, 5⟩ : GitHubRelease)],
        (toRelease gh).isPrerelease = true)
    ∧ resolve "latest"
        (fun _ => Except.ok [(⟨"v2.12.0-rc1", true, 5⟩ : GitHubRelease)])
        = ⟨⟨fallbackVersion, true, "latest"⟩, true, []⟩ :=
  ⟨rfl,
    (resolve_fallback_on_failure_or_no_stable (fun _ => Except.error "boom")).1
      "boom" "boom" "boom" rfl rfl rfl,
    by decide,
    (resolve_fallback_on_failure_or_no_stable
        (fun _ => Except.ok [⟨"v2.12.0-rc1", true, 5⟩])).2
      [⟨"v2.12.0-rc1", true, 5⟩] rfl (by decide)⟩

/-- C8: in `auto` mode a failing git setup is caught — the run succeeds, git
sources are off, and the single warning contains the failure reason — while
in `git` mode the same failure propagates as a fatal error. -/
theorem setupSources_auto_catches_git_propagates (msg : String) :
    (∃ w, setupSources ESourcesProvider.auto (Except.error msg)
        = Except.ok ⟨false, [w]⟩ ∧ msg.data <:+: w.data)
    ∧ setupSources ESourcesProvider.git (Except.error msg)
        = Except.error msg := by
  refine ⟨⟨"Git sources failed: " ++ msg ++ ". Falling back to rsync.",
    rfl, ⟨"Git sources failed: ".data, ". Falling back to rsync.".data, ?_⟩⟩, rfl⟩
  simp

/-- C9: whenever the platform version number starts with digits, `buildUrl`
succeeds exactly when the leading-digit major version is a key of
`MACOS_PKG_VERSIONS`, and on any major version outside the table it fails
with an error message containing that major-version string. -/
theorem buildUrl_total_over_table (s : Settings) (p : PlatformInfo)
    (hd : leadingDigits p.versionNumber ≠ "") :
    ((∃ u, buildUrl s p = Except.ok u)
      ↔ (MACOS_PKG_VERSIONS.lookup (leadingDigits p.versionNumber)).isSome = true)
    ∧ (MACOS_PKG_VERSIONS.lookup (leadingDigits p.versionNumber) = none →
      ∃ e, buildUrl s p = Except.error e
        ∧ (leadingDigits p.versionNumber).data <:+: e.data) := by
  unfold buildUrl
  rw [if_neg hd]
  cases h : MACOS_PKG_VERSIONS.lookup (leadingDigits p.versionNumber) with
  | none =>
    refine ⟨by simp, fun _ => ⟨_, rfl,
      ⟨"Unsupported macOS version: ".data,
        (". Supported versions: "
          ++ String.intercalate ", " (MACOS_PKG_VERSIONS.map Prod.fst)).data,
        ?_⟩⟩⟩
    simp
  | some info => simp

/-- C9 witness: major version `99` is rejected with a message naming it,
and major version `15` (Sequoia) is accepted. -/
theorem buildUrl_total_over_table_witness :
    leadingDigits ("99.0" : String) ≠ ""
    ∧ (MACOS_PKG_VERSIONS.lookup (leadingDigits "99.0") = none →
      ∃ e, buildUrl sampleSettings ⟨"Unknown", "99.0", "arm64"⟩ = Except.error e
        ∧ (leadingDigits "99.0").data <:+: e.data)
    ∧ ((∃ u, buildUrl sampleSettings samplePlatform = Except.ok u)
      ↔ (MACOS_PKG_VERSIONS.lookup (leadingDigits "15.0")).isSome = true) :=
  ⟨by decide,
    (buildUrl_total_over_table sampleSettings ⟨"Unknown", "99.0", "arm64"⟩
      (by decide)).2,
    (buildUrl_total_over_table sampleSettings samplePlatform (by decide)).1⟩

/-- C10: for a port whose name is listed in `signatureSkipPackages` under
`permissive` signature-check mode, the argument list starts with `-f`, the
verbose flag `-v` (when set) follows it, and then come `install`, the port
name and the port's variant tokens, in that order. -/
theorem portInstallArgs_flag_order (s : Settings) (port : PortConfig)
    (hmem : port.name ∈ s.signatureSkipPackages)
    (_hmode : s.signatureCheck = ESignatureCheck.permissive) :
    portInstallArgs s port
      = "-f" :: ((if s.verbose then ["-v"] else [])
          ++ "install" :: port.name :: variantTokens port.variants) := by
  unfold portInstallArgs
  have hc : s.signatureSkipPackages.contains port.name = true := by
    simpa [List.contains] using List.elem_iff.mpr hmem
  rw [hc]
  simp

/-- C10 witness: installing `db48` with variants under permissive mode with
signature skipping and verbose output. -/
theorem portInstallArgs_flag_order_witness :
    ("db48" : String) ∈ sampleSettingsPermissive.signatureSkipPackages
    ∧ sampleSettingsPermissive.signatureCheck = ESignatureCheck.permissive
    ∧ portInstallArgs sampleSettingsPermissive
        ⟨"db48", some "+tcl +universal -java"⟩
      = "-f" :: ((if sampleSettingsPermissive.verbose then ["-v"] else [])
        ++ "install" :: "db48"
          :: variantTokens (some "+tcl +universal -java")) :=
  ⟨by decide, rfl,
    portInstallArgs_flag_order sampleSettingsPermissive
      ⟨"db48", some "+tcl +universal -java"⟩ (by decide) rfl⟩

end SetupMacPorts
